import Mathlib

/-!
Shallow embedding of the aggregation / trend / comparison logic of
`src/app.py` (marathon shoe-brand analysis dashboard).

Each observation row of the pandas DataFrame built in `load_data`
(app.py lines 70-76) is a `Row`; `share_pct` is the derived column of
line 74.  Numeric columns are modelled over `ℚ` (exact arithmetic);
the one place the code's float semantics matters — pandas `std()`
returning NaN on a single sample — is modelled explicitly with
`Option`.
-/

/-- One record of `data['records']` as loaded by `load_data` (app.py 70-76):
year, event, cohort, brand, rank, share. -/
structure Row where
  year : Int
  event : String
  cohort : String
  brand : String
  rank : ℚ
  share : ℚ
  deriving DecidableEq, Repr

/-- Derived column `df['share_pct'] = df['share'] * 100` (app.py line 74). -/
def Row.share_pct (r : Row) : ℚ := r.share * 100

/-- Arithmetic mean of a list of rationals, as pandas `.mean()` computes it
on a non-empty column (sum divided by length; the empty case is never used
behind the code's non-emptiness guards). -/
def mean (l : List ℚ) : ℚ := l.sum / l.length

/-- Minimum of a list, as pandas `.min()` on a non-empty column
(the empty case is junk, never reached behind the code's guards). -/
def qmin : List ℚ → ℚ
  | [] => 0
  | x :: xs => xs.foldl min x

/-- Maximum of a list, as pandas `.max()` on a non-empty column. -/
def qmax : List ℚ → ℚ
  | [] => 0
  | x :: xs => xs.foldl max x

/-- Ordering of rows by year, the key of `sort_values('year')` (app.py 96). -/
def yearLe (a b : Row) : Prop := a.year ≤ b.year

instance : DecidableRel yearLe := fun a b => inferInstanceAs (Decidable (a.year ≤ b.year))

instance : IsTotal Row yearLe := ⟨fun a b => Int.le_total a.year b.year⟩

instance : IsTrans Row yearLe := ⟨fun _ _ _ h h' => le_trans h h'⟩

/-- Order-preserving deduplication: first occurrence kept, as pandas
`Series.unique()` (app.py 95) returns values in order of first appearance. -/
def uniqueFirsts (l : List String) : List String :=
  (l.foldl (fun acc c => if c ∈ acc then acc else c :: acc) []).reverse

/-- Filtering step of `generate_comparison_report` (app.py 135-139): the
literal `"全部"` on either axis applies no restriction on that axis. -/
def applyCEFilters (df : List Row) (cohortF eventF : String) : List Row :=
  let f1 := if cohortF ≠ "全部" then df.filter (fun r => r.cohort == cohortF) else df
  if eventF ≠ "全部" then f1.filter (fun r => r.event == eventF) else f1

/-- Result record of `generate_brand_analysis` (app.py 111-127), one entry
per cohort with at least two rows. -/
structure AnalysisEntry where
  cohort : String
  first_year : Int
  last_year : Int
  first_rank : ℚ
  last_rank : ℚ
  rank_change : ℚ
  first_share : ℚ
  last_share : ℚ
  share_change : ℚ
  best_year : Int
  best_rank : ℚ
  best_event : String
  worst_year : Int
  worst_rank : ℚ
  worst_event : String
  deriving DecidableEq, Repr

/-- The per-cohort series of `generate_brand_analysis` (app.py 96):
`brand_df[brand_df['cohort'] == cohort].sort_values('year')`.  The sort is
modelled by a stable insertion sort on the year key. -/
def cohortSeries (brand_df : List Row) (c : String) : List Row :=
  List.insertionSort yearLe (brand_df.filter (fun r => r.cohort == c))

/-- Body of the per-cohort loop of `generate_brand_analysis` (app.py 96-127):
`None` models the `continue` for series shorter than two rows.  `best` and
`worst` are `cohort_df.loc[idxmin/idxmax]`, i.e. the first row of the
year-sorted series attaining the extreme rank (`find?` of the extreme value;
the `getD` fallback is unreachable because the extreme is attained). -/
def mkEntry (c : String) (cohort_df : List Row) : Option AnalysisEntry :=
  match cohort_df with
  | [] => none
  | first :: rest =>
    if (first :: rest).length < 2 then none else
    let last := (first :: rest).getLast (List.cons_ne_nil _ _)
    let minR := qmin ((first :: rest).map (fun r => r.rank))
    let maxR := qmax ((first :: rest).map (fun r => r.rank))
    let best := ((first :: rest).find? (fun r => r.rank == minR)).getD first
    let worst := ((first :: rest).find? (fun r => r.rank == maxR)).getD first
    some { cohort := c
           first_year := first.year
           last_year := last.year
           first_rank := first.rank
           last_rank := last.rank
           rank_change := first.rank - last.rank
           first_share := first.share_pct
           last_share := last.share_pct
           share_change := last.share_pct - first.share_pct
           best_year := best.year
           best_rank := best.rank
           best_event := best.event
           worst_year := worst.year
           worst_rank := worst.rank
           worst_event := worst.event }

/-- `generate_brand_analysis(brand_df, brand_name)` (app.py 90-129): one
entry per distinct cohort (first-appearance order) whose year-sorted series
has at least two rows.  `brand_name` is unused by the source body and
omitted. -/
def generateBrandAnalysis (brand_df : List Row) : List AnalysisEntry :=
  (uniqueFirsts (brand_df.map (fun r => r.cohort))).filterMap
    (fun c => mkEntry c (cohortSeries brand_df c))

/-- Trend icon classification `get_trend_icon(change)` (app.py 81-88):
up / down / flat for positive / negative / zero change. -/
inductive TrendIcon where
  | up
  | down
  | flat
  deriving DecidableEq, Repr

/-- Model of `get_trend_icon` (app.py 81-88). -/
def getTrendIcon (change : ℚ) : TrendIcon :=
  if change > 0 then TrendIcon.up
  else if change < 0 then TrendIcon.down
  else TrendIcon.flat

/-- Per-brand record built by `generate_comparison_report` (app.py 164-174). -/
structure BrandStat where
  brand : String
  brand_type : String
  avg_rank : ℚ
  avg_share : ℚ
  best_rank : ℚ
  worst_rank : ℚ
  rank_trend : ℚ
  share_trend : ℚ
  data_points : Nat
  deriving DecidableEq, Repr

/-- `brand_df.groupby('year').agg({'rank': 'mean', 'share_pct': 'mean'})`
(app.py 153): one `(year, mean rank, mean share_pct)` triple per distinct
year, in ascending year order (pandas groupby sorts its keys). -/
def yearlyAgg (l : List Row) : List (Int × ℚ × ℚ) :=
  (List.insertionSort (fun a b : Int => a ≤ b) ((l.map (fun r => r.year)).dedup)).map
    (fun y =>
      (y, mean ((l.filter (fun r => r.year == y)).map (fun r => r.rank)),
          mean ((l.filter (fun r => r.year == y)).map Row.share_pct)))

/-- Chinese label of a brand's type (app.py 161-162): `brands_info` is the
static metadata mapping; a missing brand or missing type falls back to
`unknown`, rendered `其他`. -/
def brandTypeCN (brandsInfo : String → Option String) (brand : String) : String :=
  let t := (brandsInfo brand).getD "unknown"
  if t = "domestic" then "国产" else if t = "international" then "国际" else "其他"

/-- Body of the per-brand loop of `generate_comparison_report`
(app.py 142-174): `none` models the `continue` at line 145 for a brand with
zero rows under the active filter; the trends are `iloc[0] - iloc[-1]`
(rank) and `iloc[-1] - iloc[0]` (share) over the per-year means when at
least two distinct years exist, and the literal 0 otherwise (lines 157-159). -/
def mkBrandStat (brandsInfo : String → Option String) (filtered : List Row)
    (brand : String) : Option BrandStat :=
  let brand_df := filtered.filter (fun r => r.brand == brand)
  if brand_df.length = 0 then none else
  let yearly := yearlyAgg brand_df
  some { brand := brand
         brand_type := brandTypeCN brandsInfo brand
         avg_rank := mean (brand_df.map (fun r => r.rank))
         avg_share := mean (brand_df.map Row.share_pct)
         best_rank := qmin (brand_df.map (fun r => r.rank))
         worst_rank := qmax (brand_df.map (fun r => r.rank))
         rank_trend :=
           if 2 ≤ yearly.length then
             (yearly.headI).2.1 - ((yearly.getLast?).getD default).2.1
           else 0
         share_trend :=
           if 2 ≤ yearly.length then
             ((yearly.getLast?).getD default).2.2 - (yearly.headI).2.2
           else 0
         data_points := brand_df.length }

/-- `generate_comparison_report(selected_brands, df, cohort_filter,
event_filter)` (app.py 131-176): filter, per-brand stats (brands with no
rows are skipped), sorted ascending by average rank (line 176). -/
def generateComparisonReport (selected : List String) (df : List Row)
    (cohortF eventF : String) (brandsInfo : String → Option String) : List BrandStat :=
  List.insertionSort (fun a b : BrandStat => a.avg_rank ≤ b.avg_rank)
    (selected.filterMap (mkBrandStat brandsInfo (applyCEFilters df cohortF eventF)))

/-- Sample standard deviation of a column as pandas `Series.std()` computes
it with the default `ddof=1`: `none` models the NaN returned for fewer than
two values; otherwise the square root of the sum of squared deviations from
the mean divided by `n - 1`. -/
noncomputable def pdStd (l : List ℚ) : Option ℝ :=
  if 2 ≤ l.length then
    some (Real.sqrt (((l.map (fun x => (x - mean l) ^ 2)).sum : ℚ) / ((l.length : ℚ) - 1)))
  else none

/-- Python's builtin `max(a, x)` where `x` may be NaN (modelled `none`):
`max` keeps its first argument unless the second compares strictly greater,
and every comparison against NaN is false, so `max(a, NaN) = a`. -/
def pymax (a : ℝ) : Option ℝ → ℝ
  | none => a
  | some v => max a v

/-- One brand's radar-chart scores (app.py 728-735). -/
structure RadarEntry where
  brand : String
  avgRankScore : ℚ
  shareScore : ℚ
  bestScore : ℚ
  stabilityScore : ℝ
  coverageScore : ℚ

/-- The radar-score computation of the 品牌对比 page (app.py 715-735):
for each selected brand with at least one row under the active filter,
the five normalized factors; brands with no rows are skipped (line 718-719).
`filtered` is the page's `filtered_df`, `df` the full dataset (the coverage
denominator at line 726 uses the unfiltered `df`). -/
noncomputable def mkRadarEntry (filtered df : List Row) (brand : String) :
    Option RadarEntry :=
  let brand_df := filtered.filter (fun r => r.brand == brand)
  if brand_df.length = 0 then none else
  some { brand := brand
         avgRankScore := max 0 (100 - mean (brand_df.map (fun r => r.rank)) * 5)
         shareScore := min 100 (mean (brand_df.map Row.share_pct) * 5)
         bestScore := max 0 (100 - qmin (brand_df.map (fun r => r.rank)) * 8)
         stabilityScore :=
           pymax 0 ((pdStd (brand_df.map (fun r => r.rank))).map (fun s => 100 - s * 5))
         coverageScore :=
           ((brand_df.map (fun r => r.event)).dedup.length : ℚ) /
             ((df.map (fun r => r.event)).dedup.length : ℚ) * 100 }

/-- The per-selected-brand iteration of the radar loop (app.py 716-735). -/
noncomputable def radarData (selected : List String) (filtered df : List Row) :
    List RadarEntry :=
  selected.filterMap (mkRadarEntry filtered df)

/-- Best-record extraction of the 乔丹专题 page (app.py 367-368):
`best_rank = jordan_df['rank'].min()` then
`jordan_df[jordan_df['rank'] == best_rank].iloc[0]`.  On an empty frame
`min()` is NaN, the comparison selects nothing and `.iloc[0]` raises
IndexError — modelled by `none` (NaN compares unequal to every rank, so the
filter is empty and `head?` has no row to return). -/
def bestRecordMetric (l : List Row) : Option Row :=
  let best_rank := (l.map (fun r => r.rank)).min?
  (l.filter (fun r => some r.rank == best_rank)).head?

/-- Worst-record extraction of the 乔丹专题 page (app.py 376-377), dual to
`bestRecordMetric` with `max()`. -/
def worstRecordMetric (l : List Row) : Option Row :=
  let worst_rank := (l.map (fun r => r.rank)).max?
  (l.filter (fun r => some r.rank == worst_rank)).head?

/-- Characters the Python `re` module treats as metacharacters in a pattern:
dot, caret, dollar, star, plus, question mark, the two quantifier braces,
the two square brackets, backslash, pipe and the two parentheses.  The
regex model below is faithful to `re` only for patterns whose every
character is outside this set (such a pattern is a plain literal) or is the
`.` wildcard; the brand-search theorems restrict their patterns
accordingly, so no theorem says anything about patterns using the other
metacharacters (quantifiers, classes, groups, anchors, escapes), where the
model and the real engine diverge. -/
def regexSpecial (c : Char) : Bool :=
  c == '.' || c == '^' || c == '$' || c == '*' || c == '+' || c == '?' ||
  c == '\x7b' || c == '\x7d' || c == '[' || c == ']' || c == '\\' ||
  c == '|' || c == '(' || c == ')'

/-- Case-insensitive character match of a regex pattern character against a
text character, as `re` with `re.IGNORECASE` treats it on the fragment this
development covers: `.` matches any character, and a non-special pattern
character matches its case-folded self (folding is ASCII `Char.toLower` on
both sides, the same folding the spec-side literal definitions use).  Any
other metacharacter of `regexSpecial` is outside the modelled fragment and
no theorem applies the matcher to it. -/
def charMatch (p c : Char) : Bool := p == '.' || p.toLower == c.toLower

/-- Matching a regex pattern (restricted to literal characters and the `.`
wildcard) against a prefix of the text, all pattern characters consumed. -/
def matchHere : List Char → List Char → Bool
  | [], _ => true
  | _ :: _, [] => false
  | p :: ps, c :: cs => charMatch p c && matchHere ps cs

/-- Regex search over every suffix of the text, as `re.search` scans. -/
def reSearchAux (pat : List Char) : List Char → Bool
  | [] => matchHere pat []
  | c :: cs => matchHere pat (c :: cs) || reSearchAux pat cs

/-- Model of pandas `Series.str.contains(pat, case=False)` (app.py 853) for
one string: the default `regex=True` compiles `pat` as a regular expression
and searches it case-insensitively.  The model is faithful exactly for
patterns built from non-special characters (see `regexSpecial`) plus the
`.` wildcard; every theorem stated about the search filter keeps its
pattern inside that fragment, and nothing is claimed about patterns using
the remaining metacharacters. -/
def strContainsCI (pat s : String) : Bool := reSearchAux pat.toList s.toList

/-- Brand search filter of the 数据浏览 page (app.py 851-853): an empty
search string (falsy in Python) leaves the frame untouched, otherwise rows
whose brand matches the pattern case-insensitively are kept. -/
def brandSearchFilter (search : String) (l : List Row) : List Row :=
  if search ≠ "" then l.filter (fun r => strContainsCI search r.brand) else l

/-- Case-insensitive literal prefix match, spelled after the SPEC's words
("case-insensitive substring match"), for comparison with the source's
regex semantics. -/
def litPrefixCI : List Char → List Char → Bool
  | [], _ => true
  | _ :: _, [] => false
  | p :: ps, c :: cs => (p.toLower == c.toLower) && litPrefixCI ps cs

/-- Case-insensitive literal substring search over every suffix. -/
def litSubstrAuxCI (pat : List Char) : List Char → Bool
  | [] => litPrefixCI pat []
  | c :: cs => litPrefixCI pat (c :: cs) || litSubstrAuxCI pat cs

/-- Spec-side definition: `pat` occurs as a case-insensitive literal
substring of `s`. -/
def isSubstrCI (pat s : String) : Bool := litSubstrAuxCI pat.toList s.toList

/-- Spec-side route for aggregated share (spec §4.3): aggregate the raw
`share` (0..1) and derive the percentage only afterwards. -/
def specMeanSharePct (rows : List Row) : ℚ := mean (rows.map (fun r => r.share)) * 100

/-- Concrete dataset rows used by witnesses and counterexamples. -/
def rQA : Row := ⟨2021, "全部", "全部", "X", 1, 1/4⟩

/-- Second concrete row, with ordinary cohort and event names. -/
def rQB : Row := ⟨2021, "上马", "破3选手", "X", 2, 1/10⟩

/-- Concrete row with brand `"Nike"` used by the C9 counterexample. -/
def rNike : Row := ⟨2025, "上马", "破3选手", "Nike", 2, 1⟩

/-- Single observation of brand `"A"` in 2021, used to refute the
insufficient-data claim. -/
def rOne : Row := ⟨2021, "上马", "破3选手", "A", 3, 1⟩

/-- Second observation of brand `"A"` in the same year 2021, other event. -/
def rOneB : Row := ⟨2021, "北马", "破3选手", "A", 3, 1⟩

/-- Entry `generate_brand_analysis` produces for the one-distinct-year,
two-row series `[rOne, rOneB]`. -/
def eOne : AnalysisEntry :=
  ⟨"破3选手", 2021, 2021, 3, 3, 0, 100, 100, 0, 2021, 3, "上马", 2021, 3, "上马"⟩

/-- Two-row series of brand `"B"`: rank improves from 3 (2021) to 1 (2022). -/
def w1 : Row := ⟨2021, "E1", "C", "B", 3, 1⟩

/-- Second row of the brand-`"B"` series. -/
def w2 : Row := ⟨2022, "E1", "C", "B", 1, 0⟩

/-- Entry `generate_brand_analysis` produces for `[w1, w2]`. -/
def eW : AnalysisEntry :=
  ⟨"C", 2021, 2022, 3, 1, 2, 100, 0, -100, 2022, 1, "E1", 2021, 3, "E1"⟩

-- Basic facts about mean / qmin / qmax needed by the score-bound proofs.

theorem sum_ge_of_forall_le {a : ℚ} : ∀ {l : List ℚ}, (∀ x ∈ l, a ≤ x) →
    a * l.length ≤ l.sum := by
  intro l
  induction l with
  | nil => intro _; simp
  | cons x xs ih =>
    intro h
    have hx : a ≤ x := h x (List.mem_cons_self x xs)
    have hs := ih (fun y hy => h y (List.mem_cons_of_mem x hy))
    simp only [List.sum_cons, List.length_cons]
    push_cast
    nlinarith

theorem sum_le_of_forall_le {a : ℚ} : ∀ {l : List ℚ}, (∀ x ∈ l, x ≤ a) →
    l.sum ≤ a * l.length := by
  intro l
  induction l with
  | nil => intro _; simp
  | cons x xs ih =>
    intro h
    have hx : x ≤ a := h x (List.mem_cons_self x xs)
    have hs := ih (fun y hy => h y (List.mem_cons_of_mem x hy))
    simp only [List.sum_cons, List.length_cons]
    push_cast
    nlinarith

theorem le_mean {a : ℚ} {l : List ℚ} (hne : l ≠ []) (h : ∀ x ∈ l, a ≤ x) :
    a ≤ mean l := by
  have hlen : (0 : ℚ) < l.length := by
    have : 0 < l.length := List.length_pos.mpr hne
    exact_mod_cast this
  have := sum_ge_of_forall_le h
  rw [mean, le_div_iff₀ hlen]
  linarith

theorem mean_le {a : ℚ} {l : List ℚ} (hne : l ≠ []) (h : ∀ x ∈ l, x ≤ a) :
    mean l ≤ a := by
  have hlen : (0 : ℚ) < l.length := by
    have : 0 < l.length := List.length_pos.mpr hne
    exact_mod_cast this
  have := sum_le_of_forall_le h
  rw [mean, div_le_iff₀ hlen]
  linarith

theorem foldl_min_mem : ∀ (xs : List ℚ) (x : ℚ), xs.foldl min x ∈ x :: xs := by
  intro xs
  induction xs with
  | nil => intro x; simp
  | cons y ys ih =>
    intro x
    simp only [List.foldl_cons]
    rcases List.mem_cons.mp (ih (min x y)) with h' | h'
    · rw [h']
      rcases min_choice x y with hm | hm <;> rw [hm]
      · exact List.mem_cons_self _ _
      · exact List.mem_cons_of_mem _ (List.mem_cons_self _ _)
    · exact List.mem_cons_of_mem _ (List.mem_cons_of_mem _ h')

theorem foldl_min_le : ∀ (xs : List ℚ) (x : ℚ), ∀ y ∈ x :: xs, xs.foldl min x ≤ y := by
  intro xs
  induction xs with
  | nil =>
    intro x y hy
    rw [List.mem_singleton] at hy
    simp [hy]
  | cons z zs ih =>
    intro x y hy
    simp only [List.foldl_cons]
    rcases List.mem_cons.mp hy with h | h
    · rw [h]
      exact le_trans (ih (min x z) (min x z) (List.mem_cons_self _ _)) (min_le_left x z)
    · rcases List.mem_cons.mp h with h' | h'
      · rw [h']
        exact le_trans (ih (min x z) (min x z) (List.mem_cons_self _ _)) (min_le_right x z)
      · exact ih (min x z) y (List.mem_cons_of_mem _ h')

theorem foldl_max_mem : ∀ (xs : List ℚ) (x : ℚ), xs.foldl max x ∈ x :: xs := by
  intro xs
  induction xs with
  | nil => intro x; simp
  | cons y ys ih =>
    intro x
    simp only [List.foldl_cons]
    rcases List.mem_cons.mp (ih (max x y)) with h' | h'
    · rw [h']
      rcases max_choice x y with hm | hm <;> rw [hm]
      · exact List.mem_cons_self _ _
      · exact List.mem_cons_of_mem _ (List.mem_cons_self _ _)
    · exact List.mem_cons_of_mem _ (List.mem_cons_of_mem _ h')

theorem foldl_max_ge : ∀ (xs : List ℚ) (x : ℚ), ∀ y ∈ x :: xs, y ≤ xs.foldl max x := by
  intro xs
  induction xs with
  | nil =>
    intro x y hy
    rw [List.mem_singleton] at hy
    simp [hy]
  | cons z zs ih =>
    intro x y hy
    simp only [List.foldl_cons]
    rcases List.mem_cons.mp hy with h | h
    · rw [h]
      exact le_trans (le_max_left x z) (ih (max x z) (max x z) (List.mem_cons_self _ _))
    · rcases List.mem_cons.mp h with h' | h'
      · rw [h']
        exact le_trans (le_max_right x z) (ih (max x z) (max x z) (List.mem_cons_self _ _))
      · exact ih (max x z) y (List.mem_cons_of_mem _ h')

theorem qmin_mem {l : List ℚ} (h : l ≠ []) : qmin l ∈ l := by
  cases l with
  | nil => exact absurd rfl h
  | cons x xs => exact foldl_min_mem xs x

theorem qmin_le {l : List ℚ} : ∀ y ∈ l, qmin l ≤ y := by
  cases l with
  | nil => intro y hy; simp at hy
  | cons x xs => exact fun y hy => foldl_min_le xs x y hy

theorem qmax_mem {l : List ℚ} (h : l ≠ []) : qmax l ∈ l := by
  cases l with
  | nil => exact absurd rfl h
  | cons x xs => exact foldl_max_mem xs x

theorem le_qmax {l : List ℚ} : ∀ y ∈ l, y ≤ qmax l := by
  cases l with
  | nil => intro y hy; simp at hy
  | cons x xs => exact fun y hy => foldl_max_ge xs x y hy

theorem qmin_perm {l₁ l₂ : List ℚ} (hp : l₁.Perm l₂) (hne : l₁ ≠ []) :
    qmin l₁ = qmin l₂ := by
  have hne₂ : l₂ ≠ [] := by
    intro h; rw [h] at hp; exact hne (List.Perm.eq_nil hp)
  have h₁ : qmin l₁ ∈ l₂ := hp.mem_iff.mp (qmin_mem hne)
  have h₂ : qmin l₂ ∈ l₁ := hp.mem_iff.mpr (qmin_mem hne₂)
  exact le_antisymm (qmin_le _ h₂) (qmin_le _ h₁)

theorem qmax_perm {l₁ l₂ : List ℚ} (hp : l₁.Perm l₂) (hne : l₁ ≠ []) :
    qmax l₁ = qmax l₂ := by
  have hne₂ : l₂ ≠ [] := by
    intro h; rw [h] at hp; exact hne (List.Perm.eq_nil hp)
  have h₁ : qmax l₁ ∈ l₂ := hp.mem_iff.mp (qmax_mem hne)
  have h₂ : qmax l₂ ∈ l₁ := hp.mem_iff.mpr (qmax_mem hne₂)
  exact le_antisymm (le_qmax _ h₁) (le_qmax _ h₂)

theorem dedup_length_le_of_subset {l₁ l₂ : List String} (h : ∀ a ∈ l₁, a ∈ l₂) :
    l₁.dedup.length ≤ l₂.dedup.length := by
  rw [← List.card_toFinset, ← List.card_toFinset]
  exact Finset.card_le_card (fun a ha =>
    List.mem_toFinset.mpr (h a (List.mem_toFinset.mp ha)))

theorem find?_sorted_min_year {p : Row → Bool} :
    ∀ {T : List Row}, List.Sorted yearLe T → ∀ {b : Row}, T.find? p = some b →
      b ∈ T ∧ p b = true ∧ ∀ r ∈ T, p r = true → b.year ≤ r.year := by
  intro T
  induction T with
  | nil => intro _ b hb; simp [List.find?] at hb
  | cons a t ih =>
    intro hs b hb
    cases hpa : p a with
    | true =>
      rw [List.find?_cons, hpa] at hb
      have hba : b = a := by
        have := hb.symm
        simpa using this
      subst hba
      refine ⟨List.mem_cons_self _ _, hpa, ?_⟩
      intro r hr _
      rcases List.mem_cons.mp hr with h' | h'
      · rw [h']
      · exact List.rel_of_sorted_cons hs r h'
    | false =>
      rw [List.find?_cons, hpa] at hb
      obtain ⟨hmem, hpb, hmin⟩ := ih (List.Sorted.of_cons hs) hb
      refine ⟨List.mem_cons_of_mem _ hmem, hpb, ?_⟩
      intro r hr hpr
      rcases List.mem_cons.mp hr with h' | h'
      · rw [h'] at hpr; rw [hpa] at hpr; exact absurd hpr (by simp)
      · exact hmin r h' hpr

theorem find?_attained {v : ℚ} {T : List Row} (hv : v ∈ T.map (fun r => r.rank)) :
    ∃ b, T.find? (fun r => r.rank == v) = some b := by
  obtain ⟨r, hr, hrv⟩ := List.mem_map.mp hv
  have : (T.find? (fun r => r.rank == v)).isSome :=
    List.find?_isSome.mpr ⟨r, hr, by simp [hrv]⟩
  exact Option.isSome_iff_exists.mp this

theorem mkEntry_some_elim {c : String} {T : List Row} {e : AnalysisEntry}
    (h : mkEntry c T = some e) :
    2 ≤ T.length ∧ T ≠ [] ∧ e.cohort = c ∧
    (∃ first rest, T = first :: rest ∧
      e.first_year = first.year ∧ e.first_rank = first.rank ∧
      e.first_share = first.share_pct) ∧
    (∃ lastR, T.getLast? = some lastR ∧
      e.last_year = lastR.year ∧ e.last_rank = lastR.rank ∧
      e.last_share = lastR.share_pct ∧
      e.rank_change = e.first_rank - lastR.rank ∧
      e.share_change = lastR.share_pct - e.first_share) ∧
    (∃ best, T.find? (fun r => r.rank == qmin (T.map (fun r => r.rank))) = some best ∧
      e.best_year = best.year ∧ e.best_rank = best.rank ∧ e.best_event = best.event) ∧
    (∃ worst, T.find? (fun r => r.rank == qmax (T.map (fun r => r.rank))) = some worst ∧
      e.worst_year = worst.year ∧ e.worst_rank = worst.rank ∧
      e.worst_event = worst.event) := by
  cases T with
  | nil => simp [mkEntry] at h
  | cons first rest =>
    simp only [mkEntry] at h
    by_cases hlen : (first :: rest).length < 2
    · rw [if_pos hlen] at h; exact absurd h (by simp)
    rw [if_neg hlen] at h
    have hne : (first :: rest) ≠ [] := List.cons_ne_nil _ _
    have hminmem : qmin ((first :: rest).map (fun r => r.rank)) ∈
        (first :: rest).map (fun r => r.rank) := qmin_mem (by simp)
    have hmaxmem : qmax ((first :: rest).map (fun r => r.rank)) ∈
        (first :: rest).map (fun r => r.rank) := qmax_mem (by simp)
    obtain ⟨b, hb⟩ := find?_attained hminmem
    obtain ⟨w, hw⟩ := find?_attained hmaxmem
    have he := (Option.some.inj h).symm
    subst he
    refine ⟨by omega, hne, rfl, ⟨first, rest, rfl, rfl, rfl, rfl⟩, ?_, ?_, ?_⟩
    · refine ⟨(first :: rest).getLast hne, ?_, rfl, rfl, rfl, rfl, rfl⟩
      exact List.getLast?_eq_getLast _ hne
    · refine ⟨b, hb, ?_, ?_, ?_⟩ <;> (rw [hb]; try rfl)
    · refine ⟨w, hw, ?_, ?_, ?_⟩ <;> (rw [hw]; try rfl)

/-- C3 (code_bug evidence): on the 乔丹专题 page, filtering to zero matching
rows leaves the best/worst-record extraction (app.py 367-368 and 376-377)
with no row to return: `jordan_df['rank'].min()` is NaN on an empty frame,
the equality mask selects nothing, and `.iloc[0]` raises IndexError.  The
model evaluates both extractions at the empty input to `none` (no defined
result), contradicting the claim that every downstream computation handles
empty input without throwing. -/
theorem bestWorstRecordEmptyUndefined :
    bestRecordMetric [] = none ∧ worstRecordMetric [] = none := by
  constructor <;> rfl

/-- C7: aggregating the per-row precomputed `share_pct` column directly
(the code's route, app.py 148/153) equals aggregating the raw 0..1 `share`
and deriving the percentage afterwards (the spec's route), in exact
arithmetic. -/
theorem shareAggRoutesAgree (rows : List Row) :
    mean (rows.map Row.share_pct) = specMeanSharePct rows := by
  unfold specMeanSharePct mean Row.share_pct
  rw [List.length_map, List.length_map]
  have hsum : (rows.map (fun r => r.share * 100)).sum
      = (rows.map (fun r => r.share)).sum * 100 := by
    induction rows with
    | nil => simp
    | cons r rs ih => simp [ih]; ring
  rw [hsum, div_mul_eq_mul_div]

/-- C10: in `generate_comparison_report` the literal `"全部"` is the
unrestricted sentinel (app.py 135-139): passing it on the cohort or event
axis applies no restriction, and consequently, in any dataset containing
both a row whose cohort (resp. event) is literally `"全部"` and a row whose
cohort (resp. event) is not, no choice of filter value can restrict the
data to exactly the rows named `"全部"`. -/
theorem quanbuSentinelUnrestricted (df : List Row) (r1 r2 r3 r4 : Row)
    (h1 : r1 ∈ df) (h1c : r1.cohort = "全部")
    (h2 : r2 ∈ df) (h2c : r2.cohort ≠ "全部")
    (h3 : r3 ∈ df) (h3e : r3.event = "全部")
    (h4 : r4 ∈ df) (h4e : r4.event ≠ "全部") :
    applyCEFilters df "全部" "全部" = df ∧
    (∀ cf, applyCEFilters df cf "全部" ≠ df.filter (fun r => r.cohort == "全部")) ∧
    (∀ ef, applyCEFilters df "全部" ef ≠ df.filter (fun r => r.event == "全部")) := by
  have hid : applyCEFilters df "全部" "全部" = df := by
    simp [applyCEFilters]
  refine ⟨hid, ?_, ?_⟩
  · intro cf heq
    by_cases hcf : cf = "全部"
    · subst hcf
      rw [hid] at heq
      have : r2 ∈ df.filter (fun r => r.cohort == "全部") := heq ▸ h2
      have := (List.mem_filter.mp this).2
      exact h2c (by simpa using this)
    · have hval : applyCEFilters df cf "全部" = df.filter (fun r => r.cohort == cf) := by
        simp [applyCEFilters, hcf]
      rw [hval] at heq
      have hr1 : r1 ∈ df.filter (fun r => r.cohort == "全部") :=
        List.mem_filter.mpr ⟨h1, by simp [h1c]⟩
      rw [← heq] at hr1
      have hc1 : r1.cohort = cf := by
        have := (List.mem_filter.mp hr1).2
        simpa using this
      exact hcf (by rw [← hc1, h1c])
  · intro ef heq
    by_cases hef : ef = "全部"
    · subst hef
      rw [hid] at heq
      have : r4 ∈ df.filter (fun r => r.event == "全部") := heq ▸ h4
      have := (List.mem_filter.mp this).2
      exact h4e (by simpa using this)
    · have hval : applyCEFilters df "全部" ef = df.filter (fun r => r.event == ef) := by
        simp [applyCEFilters, hef]
      rw [hval] at heq
      have hr3 : r3 ∈ df.filter (fun r => r.event == "全部") :=
        List.mem_filter.mpr ⟨h3, by simp [h3e]⟩
      rw [← heq] at hr3
      have he3 : r3.event = ef := by
        have := (List.mem_filter.mp hr3).2
        simpa using this
      exact hef (by rw [← he3, h3e])

/-- C10 witness: the sentinel theorem applied to a concrete two-row dataset
holding one row literally named `"全部"` on both axes and one row not. -/
theorem quanbuSentinelUnrestricted_witness :
    (rQA ∈ [rQA, rQB]) ∧ rQA.cohort = "全部" ∧ (rQB ∈ [rQA, rQB]) ∧
    rQB.cohort ≠ "全部" ∧ rQA.event = "全部" ∧ rQB.event ≠ "全部" ∧
    (applyCEFilters [rQA, rQB] "全部" "全部" = [rQA, rQB] ∧
     (∀ cf, applyCEFilters [rQA, rQB] cf "全部" ≠
        [rQA, rQB].filter (fun r => r.cohort == "全部")) ∧
     (∀ ef, applyCEFilters [rQA, rQB] "全部" ef ≠
        [rQA, rQB].filter (fun r => r.event == "全部"))) :=
  ⟨List.mem_cons_self _ _, rfl, by simp, by decide, rfl, by decide,
   quanbuSentinelUnrestricted [rQA, rQB] rQA rQB rQA rQB
     (List.mem_cons_self _ _) rfl (by simp) (by decide)
     (List.mem_cons_self _ _) rfl (by simp) (by decide)⟩

theorem matchHere_eq_litPrefix {pat : List Char} (hdot : '.' ∉ pat) :
    ∀ text, matchHere pat text = litPrefixCI pat text := by
  induction pat with
  | nil => intro text; rfl
  | cons p ps ih =>
    have hp : '.' ≠ p := fun h => hdot (h ▸ List.mem_cons_self _ _)
    have hps : '.' ∉ ps := fun h => hdot (List.mem_cons_of_mem _ h)
    intro text
    cases text with
    | nil => rfl
    | cons c cs =>
      show (charMatch p c && matchHere ps cs) = ((p.toLower == c.toLower) && litPrefixCI ps cs)
      rw [ih hps]
      unfold charMatch
      have : (p == '.') = false := beq_eq_false_iff_ne.mpr (fun h => hp h.symm)
      rw [this, Bool.false_or]

theorem reSearch_eq_litSubstr {pat : List Char} (hdot : '.' ∉ pat) :
    ∀ text, reSearchAux pat text = litSubstrAuxCI pat text := by
  intro text
  induction text with
  | nil => exact matchHere_eq_litPrefix hdot []
  | cons c cs ih =>
    show (matchHere pat (c :: cs) || reSearchAux pat cs)
        = (litPrefixCI pat (c :: cs) || litSubstrAuxCI pat cs)
    rw [matchHere_eq_litPrefix hdot, ih]

/-- C9 counterexample: the search string `"N."` retains the row with brand
`"Nike"` (pandas `str.contains` compiles the pattern as a regex, where `.`
matches any character), yet `"N."` is not a case-insensitive literal
substring of `"Nike"` — so "retains exactly when s is a literal substring"
is false at this input. -/
theorem brandSearchRegexCounterexample :
    brandSearchFilter "N." [rNike] = [rNike] ∧ isSubstrCI "N." "Nike" = false := by
  constructor <;> decide

/-- C9 amended: the brand-search filter keeps a row exactly when the search
string matches the brand as a case-insensitive regular expression
(`str.contains` default `regex=True`); only for search strings free of
every regex metacharacter (`regexSpecial`) is the pattern a literal, and on
exactly that fragment the filter coincides with the case-insensitive
literal substring semantics the claim states.  Patterns using any
metacharacter fall outside this equivalence (`.` is refuted concretely by
the counterexample; quantifiers, classes and groups are outside the model
and nothing is asserted about them). -/
theorem brandSearchLiteralWhenNoMeta (s : String) (l : List Row)
    (hs : s ≠ "") (hmeta : ∀ c ∈ s.toList, regexSpecial c = false) :
    brandSearchFilter s l = l.filter (fun r => isSubstrCI s r.brand) := by
  have hdot : '.' ∉ s.toList := by
    intro hmem
    have h := hmeta '.' hmem
    simp [regexSpecial] at h
  unfold brandSearchFilter
  rw [if_pos hs]
  refine List.filter_congr (fun r _ => ?_)
  unfold strContainsCI isSubstrCI
  exact reSearch_eq_litSubstr hdot _

/-- C9 witness: the amended theorem applied at the metacharacter-free
search string `"ike"` over the single-row frame with brand `"Nike"`. -/
theorem brandSearchLiteralWhenNoMeta_witness :
    ("ike" ≠ "") ∧ (∀ c ∈ "ike".toList, regexSpecial c = false) ∧
    brandSearchFilter "ike" [rNike] = [rNike].filter (fun r => isSubstrCI "ike" r.brand) :=
  ⟨by decide, by decide,
   brandSearchLiteralWhenNoMeta "ike" [rNike] (by decide) (by decide)⟩

theorem mkBrandStat_some_elim {bi : String → Option String} {fil : List Row}
    {b : String} {s : BrandStat} (h : mkBrandStat bi fil b = some s) :
    fil.filter (fun r => r.brand == b) ≠ [] ∧ s.brand = b ∧
    s.rank_trend =
      (if 2 ≤ (yearlyAgg (fil.filter (fun r => r.brand == b))).length then
        ((yearlyAgg (fil.filter (fun r => r.brand == b))).headI).2.1 -
          (((yearlyAgg (fil.filter (fun r => r.brand == b))).getLast?).getD default).2.1
      else 0) ∧
    s.share_trend =
      (if 2 ≤ (yearlyAgg (fil.filter (fun r => r.brand == b))).length then
        (((yearlyAgg (fil.filter (fun r => r.brand == b))).getLast?).getD default).2.2 -
          ((yearlyAgg (fil.filter (fun r => r.brand == b))).headI).2.2
      else 0) := by
  simp only [mkBrandStat] at h
  by_cases hg : (fil.filter (fun r => r.brand == b)).length = 0
  · rw [if_pos hg] at h; exact absurd h (by simp)
  · rw [if_neg hg] at h
    have hs := (Option.some.inj h).symm
    subst hs
    refine ⟨fun hnil => hg (by rw [hnil]; rfl), rfl, rfl, rfl⟩

theorem mkBrandStat_mk (bi : String → Option String) {fil : List Row} {b : String}
    (hne : fil.filter (fun r => r.brand == b) ≠ []) :
    ∃ s, mkBrandStat bi fil b = some s ∧ s.brand = b := by
  simp only [mkBrandStat]
  rw [if_neg (fun h0 => hne (List.length_eq_zero.mp h0))]
  exact ⟨_, rfl, rfl⟩

theorem yearlyAgg_length (l : List Row) :
    (yearlyAgg l).length = ((l.map (fun r => r.year)).dedup).length := by
  simp [yearlyAgg, List.length_insertionSort]

/-- C8: a selected brand appears in the comparison report exactly when it has
at least one row under the active filter: brands with zero matching rows are
silently skipped (the `continue` at app.py 144-145), never raise, and do not
block the other selected brands. -/
theorem comparisonSkipsEmptyBrands (selected : List String) (df : List Row)
    (cohortF eventF : String) (brandsInfo : String → Option String) (b : String) :
    (∃ s ∈ generateComparisonReport selected df cohortF eventF brandsInfo, s.brand = b)
      ↔ b ∈ selected ∧
        (applyCEFilters df cohortF eventF).filter (fun r => r.brand == b) ≠ [] := by
  unfold generateComparisonReport
  constructor
  · rintro ⟨s, hs, hsb⟩
    have hs' : s ∈ selected.filterMap
        (mkBrandStat brandsInfo (applyCEFilters df cohortF eventF)) :=
      (List.perm_insertionSort _ _).mem_iff.mp hs
    obtain ⟨a, ha, hfa⟩ := List.mem_filterMap.mp hs'
    obtain ⟨hne, hsb', _, _⟩ := mkBrandStat_some_elim hfa
    rw [hsb] at hsb'
    rw [hsb']
    exact ⟨ha, hne⟩
  · rintro ⟨hb, hne⟩
    obtain ⟨s, hs, hsb⟩ := mkBrandStat_mk brandsInfo hne
    exact ⟨s, (List.perm_insertionSort _ _).mem_iff.mpr
      (List.mem_filterMap.mpr ⟨b, hb, hs⟩), hsb⟩

/-- C2 amended: with fewer than two distinct years in a requested series the
code does not report an insufficient-data sentinel: `generate_comparison_report`
(app.py 157-159) reports literal zero trends (rendered "flat" downstream),
while `generate_brand_analysis` (app.py 98-99) skips any per-cohort series
with fewer than two ROWS (not years) via `continue`.  Neither computation
crashes (both are total functions here). -/
theorem fewYearsTrendBehavior :
    (∀ (selected : List String) (df : List Row) (cohortF eventF : String)
        (brandsInfo : String → Option String) (s : BrandStat),
        s ∈ generateComparisonReport selected df cohortF eventF brandsInfo →
        ((((applyCEFilters df cohortF eventF).filter
            (fun r => r.brand == s.brand)).map (fun r => r.year)).dedup.length < 2 →
          s.rank_trend = 0 ∧ s.share_trend = 0)) ∧
    (∀ (brand_df : List Row) (c : String),
        (brand_df.filter (fun r => r.cohort == c)).length < 2 →
        ∀ e ∈ generateBrandAnalysis brand_df, e.cohort ≠ c) := by
  constructor
  · intro selected df cohortF eventF brandsInfo s hs hyears
    have hs' : s ∈ selected.filterMap
        (mkBrandStat brandsInfo (applyCEFilters df cohortF eventF)) :=
      (List.perm_insertionSort _ _).mem_iff.mp hs
    obtain ⟨a, _, hfa⟩ := List.mem_filterMap.mp hs'
    obtain ⟨_, hsb, hrt, hst⟩ := mkBrandStat_some_elim hfa
    rw [hsb] at hyears
    have hnot : ¬ 2 ≤ (yearlyAgg ((applyCEFilters df cohortF eventF).filter
        (fun r => r.brand == a))).length := by
      rw [yearlyAgg_length]
      omega
    rw [if_neg hnot] at hrt
    rw [if_neg hnot] at hst
    exact ⟨hrt, hst⟩
  · intro brand_df c hlen e he hceq
    obtain ⟨c', _, hmk⟩ := List.mem_filterMap.mp he
    obtain ⟨hT2, _, hcoh, _⟩ := mkEntry_some_elim hmk
    rw [hceq] at hcoh
    rw [← hcoh] at hT2
    have : (cohortSeries brand_df c).length =
        (brand_df.filter (fun r => r.cohort == c)).length := by
      simp [cohortSeries, List.length_insertionSort]
    omega

theorem generateBrandAnalysis_rOne_eval :
    generateBrandAnalysis [rOne, rOneB] = [eOne] := by
  have h1 : uniqueFirsts (List.map (fun r => r.cohort) [rOne, rOneB]) = ["破3选手"] := by
    decide
  have h2 : cohortSeries [rOne, rOneB] "破3选手" = [rOne, rOneB] := by decide
  have hq1 : qmin (List.map (fun r => r.rank) [rOne, rOneB]) = 3 := by decide
  have hq2 : qmax (List.map (fun r => r.rank) [rOne, rOneB]) = 3 := by decide
  rw [generateBrandAnalysis, h1, List.filterMap_cons, h2]
  simp only [mkEntry, hq1, hq2]
  norm_num [rOne, rOneB, eOne, Row.share_pct]

/-- C2 counterexample: on series with a single distinct year the code
reports a zero delta, not an insufficient-data sentinel.  The comparison
report for brand `"A"` with one row reports `(rank_trend, share_trend) =
(0, 0)`; the brand analysis on a two-row single-year series emits an entry
whose delta is 0 instead of skipping it. -/
theorem oneYearTrendReportsZero :
    (generateComparisonReport ["A"] [rOne] "全部" "全部" (fun _ => none)).map
        (fun s => (s.rank_trend, s.share_trend)) = [(0, 0)] ∧
    (([rOne].map (fun r => r.year)).dedup.length = 1) ∧
    (([rOne, rOneB].map (fun r => r.year)).dedup.length = 1) ∧
    (generateBrandAnalysis [rOne, rOneB]).map (fun e => e.rank_change) = [0] := by
  refine ⟨by decide, by decide, by decide, ?_⟩
  rw [generateBrandAnalysis_rOne_eval]
  rfl

theorem generateBrandAnalysis_w_eval : generateBrandAnalysis [w1, w2] = [eW] := by
  have h1 : uniqueFirsts (List.map (fun r => r.cohort) [w1, w2]) = ["C"] := by decide
  have h2 : cohortSeries [w1, w2] "C" = [w1, w2] := by decide
  have hq1 : qmin (List.map (fun r => r.rank) [w1, w2]) = 1 := by decide
  have hq2 : qmax (List.map (fun r => r.rank) [w1, w2]) = 3 := by decide
  rw [generateBrandAnalysis, h1, List.filterMap_cons, h2]
  simp only [mkEntry, hq1, hq2]
  norm_num [w1, w2, eW, Row.share_pct]

theorem eW_mem : eW ∈ generateBrandAnalysis [w1, w2] := by
  rw [generateBrandAnalysis_w_eval]
  exact List.mem_singleton.mpr rfl

/-- C6 counterexample: for the rank series 3 (2021) → 1 (2022) the code's
reported delta is `first - last = 2` (app.py 104), not `last - first = -2`;
the claim's rule (`delta = last - first`, up iff positive) would classify
this improving series as "down", while the code reports "up". -/
theorem rankTrendDeltaCounterexample :
    generateBrandAnalysis [w1, w2] = [eW] ∧
    eW.rank_change = w1.rank - w2.rank ∧
    eW.rank_change ≠ w2.rank - w1.rank ∧
    getTrendIcon eW.rank_change = TrendIcon.up ∧
    w2.rank - w1.rank < 0 := by
  refine ⟨generateBrandAnalysis_w_eval, ?_, ?_, ?_, ?_⟩
  · norm_num [eW, w1, w2]
  · norm_num [eW, w1, w2]
  · norm_num [eW, getTrendIcon]
  · norm_num [w1, w2]

/-- C6 amended: for a per-cohort series with at least two rows ordered by
year, the share delta is `last - first` but the rank delta is
`first - last` (positive means the rank number decreased, i.e. improved);
the direction classification `get_trend_icon` is up / down / flat exactly
for a positive / negative / zero value of the so-computed change. -/
theorem trendDeltaOrientation (brand_df : List Row) (e : AnalysisEntry)
    (he : e ∈ generateBrandAnalysis brand_df) :
    (∃ f l, (cohortSeries brand_df e.cohort).head? = some f ∧
        (cohortSeries brand_df e.cohort).getLast? = some l ∧
        e.first_year = f.year ∧ e.last_year = l.year ∧
        e.rank_change = f.rank - l.rank ∧
        e.share_change = l.share_pct - f.share_pct) ∧
    (∀ q : ℚ, (getTrendIcon q = TrendIcon.up ↔ 0 < q) ∧
        (getTrendIcon q = TrendIcon.down ↔ q < 0) ∧
        (getTrendIcon q = TrendIcon.flat ↔ q = 0)) := by
  constructor
  · obtain ⟨c, _, hmk⟩ := List.mem_filterMap.mp he
    obtain ⟨_, _, hcoh, ⟨first, rest, hT, hfy, hfr, hfs⟩,
      ⟨lastR, hlast, hly, hlr, hls, hrc, hsc⟩, _, _⟩ := mkEntry_some_elim hmk
    refine ⟨first, lastR, ?_, ?_, hfy, hly, ?_, ?_⟩
    · rw [hcoh, hT]; rfl
    · rw [hcoh]; exact hlast
    · rw [hrc, hfr]
    · rw [hsc, hfs]
  · intro q
    unfold getTrendIcon
    rcases lt_trichotomy q 0 with h | h | h
    · rw [if_neg (by linarith), if_pos h]
      refine ⟨⟨by intro hc; exact absurd hc (by simp), by intro hc; linarith⟩,
        ⟨fun _ => h, fun _ => rfl⟩, ⟨by intro hc; exact absurd hc (by simp), by intro hc; linarith⟩⟩
    · subst h
      rw [if_neg (by linarith), if_neg (by linarith)]
      refine ⟨⟨by intro hc; exact absurd hc (by simp), by intro hc; linarith⟩,
        ⟨by intro hc; exact absurd hc (by simp), by intro hc; linarith⟩, ⟨fun _ => rfl, fun _ => rfl⟩⟩
    · rw [if_pos h]
      refine ⟨⟨fun _ => h, fun _ => rfl⟩,
        ⟨by intro hc; exact absurd hc (by simp), by intro hc; linarith⟩,
        ⟨by intro hc; exact absurd hc (by simp), by intro hc; linarith⟩⟩

/-- C6 witness: the amended theorem applied to the concrete series
`[w1, w2]` and its entry `eW`. -/
theorem trendDeltaOrientation_witness :
    eW ∈ generateBrandAnalysis [w1, w2] ∧
    ((∃ f l, (cohortSeries [w1, w2] eW.cohort).head? = some f ∧
        (cohortSeries [w1, w2] eW.cohort).getLast? = some l ∧
        eW.first_year = f.year ∧ eW.last_year = l.year ∧
        eW.rank_change = f.rank - l.rank ∧
        eW.share_change = l.share_pct - f.share_pct) ∧
    (∀ q : ℚ, (getTrendIcon q = TrendIcon.up ↔ 0 < q) ∧
        (getTrendIcon q = TrendIcon.down ↔ q < 0) ∧
        (getTrendIcon q = TrendIcon.flat ↔ q = 0))) :=
  ⟨eW_mem, trendDeltaOrientation [w1, w2] eW eW_mem⟩

/-- C4: every analysis entry's best (resp. worst) record is attained on the
full per-cohort series — its rank is the minimum (resp. maximum) over all
rows of the cohort, its year/event belong to a row attaining it — and among
all rows tying at the extreme value the entry carries the earliest year
(`idxmin`/`idxmax` return the first position of the year-sorted series). -/
theorem bestWorstEarliestYear (brand_df : List Row) (e : AnalysisEntry)
    (he : e ∈ generateBrandAnalysis brand_df) :
    (∃ r ∈ brand_df.filter (fun r => r.cohort == e.cohort),
        r.rank = e.best_rank ∧ r.year = e.best_year ∧ r.event = e.best_event) ∧
    (∀ r ∈ brand_df.filter (fun r => r.cohort == e.cohort), e.best_rank ≤ r.rank) ∧
    (∀ r ∈ brand_df.filter (fun r => r.cohort == e.cohort),
        r.rank = e.best_rank → e.best_year ≤ r.year) ∧
    (∃ r ∈ brand_df.filter (fun r => r.cohort == e.cohort),
        r.rank = e.worst_rank ∧ r.year = e.worst_year ∧ r.event = e.worst_event) ∧
    (∀ r ∈ brand_df.filter (fun r => r.cohort == e.cohort), r.rank ≤ e.worst_rank) ∧
    (∀ r ∈ brand_df.filter (fun r => r.cohort == e.cohort),
        r.rank = e.worst_rank → e.worst_year ≤ r.year) := by
  obtain ⟨c, _, hmk⟩ := List.mem_filterMap.mp he
  obtain ⟨_, hTne, hcoh, _, _, ⟨best, hfind, hby, hbr, hbe⟩,
    ⟨worst, hwfind, hwy, hwr, hwe⟩⟩ := mkEntry_some_elim hmk
  rw [hcoh]
  have hsorted : List.Sorted yearLe (cohortSeries brand_df c) :=
    List.sorted_insertionSort yearLe _
  have hperm : (cohortSeries brand_df c).Perm
      (brand_df.filter (fun r => r.cohort == c)) :=
    List.perm_insertionSort yearLe _
  obtain ⟨hbmem, hbp, hbmin⟩ := find?_sorted_min_year hsorted hfind
  obtain ⟨hwmem, hwp, hwmin⟩ := find?_sorted_min_year hsorted hwfind
  have hbrank : best.rank = qmin ((cohortSeries brand_df c).map (fun r => r.rank)) := by
    simpa using hbp
  have hwrank : worst.rank = qmax ((cohortSeries brand_df c).map (fun r => r.rank)) := by
    simpa using hwp
  refine ⟨⟨best, hperm.mem_iff.mp hbmem, hbr.symm, hby.symm, hbe.symm⟩, ?_, ?_,
    ⟨worst, hperm.mem_iff.mp hwmem, hwr.symm, hwy.symm, hwe.symm⟩, ?_, ?_⟩
  · intro r hr
    rw [hbr, hbrank]
    exact qmin_le _ (List.mem_map_of_mem _ (hperm.mem_iff.mpr hr))
  · intro r hr hrank
    rw [hby]
    refine hbmin r (hperm.mem_iff.mpr hr) ?_
    rw [hrank, hbr]
    simp [hbrank]
  · intro r hr
    rw [hwr, hwrank]
    exact le_qmax _ (List.mem_map_of_mem _ (hperm.mem_iff.mpr hr))
  · intro r hr hrank
    rw [hwy]
    refine hwmin r (hperm.mem_iff.mpr hr) ?_
    rw [hrank, hwr]
    simp [hwrank]

/-- C4 witness: the best/worst theorem applied to the concrete series
`[w1, w2]` and its entry `eW`. -/
theorem bestWorstEarliestYear_witness :
    eW ∈ generateBrandAnalysis [w1, w2] ∧
    ((∃ r ∈ [w1, w2].filter (fun r => r.cohort == eW.cohort),
        r.rank = eW.best_rank ∧ r.year = eW.best_year ∧ r.event = eW.best_event) ∧
    (∀ r ∈ [w1, w2].filter (fun r => r.cohort == eW.cohort), eW.best_rank ≤ r.rank) ∧
    (∀ r ∈ [w1, w2].filter (fun r => r.cohort == eW.cohort),
        r.rank = eW.best_rank → eW.best_year ≤ r.year) ∧
    (∃ r ∈ [w1, w2].filter (fun r => r.cohort == eW.cohort),
        r.rank = eW.worst_rank ∧ r.year = eW.worst_year ∧ r.event = eW.worst_event) ∧
    (∀ r ∈ [w1, w2].filter (fun r => r.cohort == eW.cohort), r.rank ≤ eW.worst_rank) ∧
    (∀ r ∈ [w1, w2].filter (fun r => r.cohort == eW.cohort),
        r.rank = eW.worst_rank → eW.worst_year ≤ r.year)) :=
  ⟨eW_mem, bestWorstEarliestYear [w1, w2] eW eW_mem⟩

theorem pymax_linear_bounds (x : ℝ) (hx : 0 ≤ x) :
    0 ≤ pymax 0 (some (100 - x * 5)) ∧ pymax 0 (some (100 - x * 5)) ≤ 100 := by
  unfold pymax
  exact ⟨le_max_left _ _, max_le (by norm_num) (by linarith)⟩

theorem mkRadarEntry_some_elim {filtered df : List Row} {b : String} {e : RadarEntry}
    (h : mkRadarEntry filtered df b = some e) :
    filtered.filter (fun r => r.brand == b) ≠ [] ∧ e.brand = b ∧
    e.avgRankScore = max 0 (100 -
      mean ((filtered.filter (fun r => r.brand == b)).map (fun r => r.rank)) * 5) ∧
    e.shareScore = min 100 (mean
      ((filtered.filter (fun r => r.brand == b)).map Row.share_pct) * 5) ∧
    e.bestScore = max 0 (100 -
      qmin ((filtered.filter (fun r => r.brand == b)).map (fun r => r.rank)) * 8) ∧
    e.stabilityScore = pymax 0 ((pdStd
      ((filtered.filter (fun r => r.brand == b)).map (fun r => r.rank))).map
        (fun s => 100 - s * 5)) ∧
    e.coverageScore =
      (((filtered.filter (fun r => r.brand == b)).map (fun r => r.event)).dedup.length : ℚ) /
        ((df.map (fun r => r.event)).dedup.length : ℚ) * 100 := by
  simp only [mkRadarEntry] at h
  by_cases hg : (filtered.filter (fun r => r.brand == b)).length = 0
  · rw [if_pos hg] at h; exact absurd h (by simp)
  · rw [if_neg hg] at h
    have he := (Option.some.inj h).symm
    subst he
    exact ⟨fun hnil => hg (by rw [hnil]; rfl), rfl, rfl, rfl, rfl, rfl, rfl⟩

/-- C5: under the data-model invariants (rank at least 1, share in [0,1]) and
with the filtered frame a subset of the full dataset, all five radar scores
of every compared brand lie in [0, 100]. -/
theorem radarScoresBounded (selected : List String) (filtered df : List Row)
    (hsub : ∀ r ∈ filtered, r ∈ df)
    (hrank : ∀ r ∈ filtered, 1 ≤ r.rank)
    (hshare : ∀ r ∈ filtered, 0 ≤ r.share ∧ r.share ≤ 1) :
    ∀ e ∈ radarData selected filtered df,
      (0 ≤ e.avgRankScore ∧ e.avgRankScore ≤ 100) ∧
      (0 ≤ e.shareScore ∧ e.shareScore ≤ 100) ∧
      (0 ≤ e.bestScore ∧ e.bestScore ≤ 100) ∧
      (0 ≤ e.stabilityScore ∧ e.stabilityScore ≤ 100) ∧
      (0 ≤ e.coverageScore ∧ e.coverageScore ≤ 100) := by
  intro e he
  obtain ⟨b, _, hmb⟩ := List.mem_filterMap.mp he
  obtain ⟨hne, _, hA, hS, hB, hSt, hC⟩ := mkRadarEntry_some_elim hmb
  have hBsub : ∀ r ∈ filtered.filter (fun r => r.brand == b), r ∈ filtered :=
    fun r hr => (List.mem_filter.mp hr).1
  have hRne : (filtered.filter (fun r => r.brand == b)).map (fun r => r.rank) ≠ [] := by
    intro hmap
    exact hne (List.map_eq_nil_iff.mp hmap)
  have hrank1 : ∀ x ∈ (filtered.filter (fun r => r.brand == b)).map (fun r => r.rank),
      1 ≤ x := by
    intro x hx
    obtain ⟨r, hr, hrx⟩ := List.mem_map.mp hx
    rw [← hrx]
    exact hrank r (hBsub r hr)
  have hmean1 : 1 ≤ mean ((filtered.filter (fun r => r.brand == b)).map (fun r => r.rank)) :=
    le_mean hRne hrank1
  have hPne : (filtered.filter (fun r => r.brand == b)).map Row.share_pct ≠ [] := by
    intro hmap
    exact hne (List.map_eq_nil_iff.mp hmap)
  have hpct : ∀ x ∈ (filtered.filter (fun r => r.brand == b)).map Row.share_pct,
      0 ≤ x ∧ x ≤ 100 := by
    intro x hx
    obtain ⟨r, hr, hrx⟩ := List.mem_map.mp hx
    obtain ⟨h0, h1⟩ := hshare r (hBsub r hr)
    rw [← hrx]
    unfold Row.share_pct
    constructor <;> nlinarith
  have hm0 : 0 ≤ mean ((filtered.filter (fun r => r.brand == b)).map Row.share_pct) :=
    le_mean hPne (fun x hx => (hpct x hx).1)
  refine ⟨?_, ?_, ?_, ?_, ?_⟩
  · rw [hA]
    exact ⟨le_max_left _ _, max_le (by norm_num) (by linarith)⟩
  · rw [hS]
    exact ⟨le_min (by norm_num) (by linarith), min_le_left _ _⟩
  · rw [hB]
    have hq1 : 1 ≤ qmin ((filtered.filter (fun r => r.brand == b)).map (fun r => r.rank)) :=
      hrank1 _ (qmin_mem hRne)
    exact ⟨le_max_left _ _, max_le (by norm_num) (by linarith)⟩
  · rw [hSt]
    by_cases h2 : 2 ≤ ((filtered.filter (fun r => r.brand == b)).map (fun r => r.rank)).length
    · rw [pdStd, if_pos h2]
      simp only [Option.map_some']
      exact pymax_linear_bounds _ (Real.sqrt_nonneg _)
    · rw [pdStd, if_neg h2]
      simp only [Option.map_none']
      unfold pymax
      norm_num
  · rw [hC]
    have hevsub : ∀ a ∈ (filtered.filter (fun r => r.brand == b)).map (fun r => r.event),
        a ∈ df.map (fun r => r.event) := by
      intro a ha
      obtain ⟨r, hr, hra⟩ := List.mem_map.mp ha
      exact hra ▸ List.mem_map_of_mem _ (hsub r (hBsub r hr))
    have hle := dedup_length_le_of_subset hevsub
    have hdfne : df.map (fun r => r.event) ≠ [] := by
      obtain ⟨r, hr⟩ := List.exists_mem_of_ne_nil _ hne
      intro hmap
      exact absurd (List.mem_map_of_mem (fun r => r.event) (hsub r (hBsub r hr)))
        (by rw [hmap]; simp)
    have hdpos : 0 < ((df.map (fun r => r.event)).dedup.length : ℚ) := by
      have : (df.map (fun r => r.event)).dedup ≠ [] :=
        fun hd => hdfne ((List.dedup_eq_nil _).mp hd)
      have := List.length_pos.mpr this
      exact_mod_cast this
    constructor
    · positivity
    · have hratio : (((filtered.filter (fun r => r.brand == b)).map
          (fun r => r.event)).dedup.length : ℚ) /
          ((df.map (fun r => r.event)).dedup.length : ℚ) ≤ 1 :=
        (div_le_one hdpos).mpr (by exact_mod_cast hle)
      nlinarith

/-- C5 witness: the score-bound theorem applied to the one-row dataset
`[rOne]` (rank 3, share 1) with brand `"A"` selected. -/
theorem radarScoresBounded_witness :
    (∀ r ∈ [rOne], r ∈ [rOne]) ∧ (∀ r ∈ [rOne], 1 ≤ r.rank) ∧
    (∀ r ∈ [rOne], 0 ≤ r.share ∧ r.share ≤ 1) ∧
    (∀ e ∈ radarData ["A"] [rOne] [rOne],
      (0 ≤ e.avgRankScore ∧ e.avgRankScore ≤ 100) ∧
      (0 ≤ e.shareScore ∧ e.shareScore ≤ 100) ∧
      (0 ≤ e.bestScore ∧ e.bestScore ≤ 100) ∧
      (0 ≤ e.stabilityScore ∧ e.stabilityScore ≤ 100) ∧
      (0 ≤ e.coverageScore ∧ e.coverageScore ≤ 100)) := by
  have h1 : ∀ r ∈ [rOne], r ∈ [rOne] := fun r hr => hr
  have h2 : ∀ r ∈ [rOne], 1 ≤ r.rank := by
    intro r hr
    rw [List.mem_singleton] at hr
    subst hr
    norm_num [rOne]
  have h3 : ∀ r ∈ [rOne], 0 ≤ r.share ∧ r.share ≤ 1 := by
    intro r hr
    rw [List.mem_singleton] at hr
    subst hr
    norm_num [rOne]
  exact ⟨h1, h2, h3, radarScoresBounded ["A"] [rOne] [rOne] h1 h2 h3⟩

/-- C1 counterexample: for a brand with exactly one observation the computed
rank standard deviation is NaN (pandas `std()` with `ddof=1`), modelled
`none` — not 0 — and the stability score evaluates to 0 (Python
`max(0, NaN)` keeps 0), not 100. -/
theorem singleSampleStabilityCounterexample :
    pdStd (([rOne].filter (fun r => r.brand == "A")).map (fun r => r.rank)) = none ∧
    (radarData ["A"] [rOne] [rOne]).map (fun e => e.stabilityScore) = [0] ∧
    ((0 : ℝ) ≠ 100) := by
  have hfil : [rOne].filter (fun r => r.brand == "A") = [rOne] := by decide
  have hstd : pdStd (([rOne].filter (fun r => r.brand == "A")).map
      (fun r => r.rank)) = none := by
    rw [hfil, pdStd, if_neg (by norm_num)]
  refine ⟨hstd, ?_, by norm_num⟩
  have hg : ¬ ([rOne].filter (fun r => r.brand == "A")).length = 0 := by
    rw [hfil]
    norm_num
  have hmk : ∃ e, mkRadarEntry [rOne] [rOne] "A" = some e ∧
      e.stabilityScore = pymax 0 ((pdStd (([rOne].filter
        (fun r => r.brand == "A")).map (fun r => r.rank))).map
          (fun s => 100 - s * 5)) := by
    simp only [mkRadarEntry]
    rw [if_neg hg]
    exact ⟨_, rfl, rfl⟩
  obtain ⟨e, hme, hes⟩ := hmk
  rw [radarData]
  simp only [List.filterMap_cons, hme, List.filterMap_nil, List.map_cons, List.map_nil]
  rw [hes, hstd]
  rfl

/-- C1 amended: a brand with exactly one observation under the active filter
has rank standard deviation NaN (`none` in the model, pandas `ddof=1`), and
its stability score is 0 — `max(0, 100 - NaN * 5)` evaluates to the first
argument because every comparison against NaN is false — rather than the
claimed stddev 0 and score 100.  The brand is still shown (not dropped). -/
theorem singleSampleStabilityScoreZero (selected : List String) (filtered df : List Row)
    (b : String) (hb : b ∈ selected)
    (hone : (filtered.filter (fun r => r.brand == b)).length = 1) :
    pdStd ((filtered.filter (fun r => r.brand == b)).map (fun r => r.rank)) = none ∧
    ∃ e ∈ radarData selected filtered df, e.brand = b ∧ e.stabilityScore = 0 := by
  have hlen : ((filtered.filter (fun r => r.brand == b)).map
      (fun r => r.rank)).length = 1 := by
    rw [List.length_map]
    exact hone
  have hstd : pdStd ((filtered.filter (fun r => r.brand == b)).map
      (fun r => r.rank)) = none := by
    rw [pdStd, if_neg (by rw [hlen]; norm_num)]
  refine ⟨hstd, ?_⟩
  have hg : ¬ (filtered.filter (fun r => r.brand == b)).length = 0 := by omega
  have hmk : ∃ e, mkRadarEntry filtered df b = some e ∧ e.brand = b ∧
      e.stabilityScore = pymax 0 ((pdStd ((filtered.filter
        (fun r => r.brand == b)).map (fun r => r.rank))).map
          (fun s => 100 - s * 5)) := by
    simp only [mkRadarEntry]
    rw [if_neg hg]
    exact ⟨_, rfl, rfl, rfl⟩
  obtain ⟨e, hme, heb, hes⟩ := hmk
  refine ⟨e, List.mem_filterMap.mpr ⟨b, hb, hme⟩, heb, ?_⟩
  rw [hes, hstd]
  rfl

/-- C1 witness: the amended theorem applied to the one-row dataset `[rOne]`
with brand `"A"` selected. -/
theorem singleSampleStabilityScoreZero_witness :
    ("A" ∈ ["A"]) ∧ (([rOne].filter (fun r => r.brand == "A")).length = 1) ∧
    (pdStd (([rOne].filter (fun r => r.brand == "A")).map (fun r => r.rank)) = none ∧
     ∃ e ∈ radarData ["A"] [rOne] [rOne], e.brand = "A" ∧ e.stabilityScore = 0) := by
  have hb : "A" ∈ ["A"] := List.mem_singleton.mpr rfl
  have hone : ([rOne].filter (fun r => r.brand == "A")).length = 1 := by decide
  exact ⟨hb, hone, singleSampleStabilityScoreZero ["A"] [rOne] [rOne] "A" hb hone⟩
